import Mathlib

/-!
Shallow embedding of the PowerAware TOPSIS scheduler plugin
(simulator/scheduler/plugin/powertopsis/plugin.go), together with proofs
about its scoring pipeline.  Go float64 arithmetic is modelled by exact
real arithmetic; Go int64 fields by integers; Go maps keyed by node name
by association lists.
-/

namespace PowerTopsis

/-- The four fixed criteria, mirroring the key list
["pods", "cpu", "memory", "power"] iterated by getExtreme in plugin.go. -/
inductive Crit
  | pods
  | cpu
  | mem
  | power
deriving DecidableEq

/-- Per-node metric vector, mirroring `type nodeVector struct
{ pods, cpu, mem, power float64 }` in plugin.go. -/
structure nodeVector where
  pods : ℝ
  cpu : ℝ
  mem : ℝ
  power : ℝ

/-- Power model constants, mirroring `type PowerModelArgs struct
{ K0, K1, K2 float64 }` in plugin.go. -/
structure PowerModelArgs where
  k0 : ℝ
  k1 : ℝ
  k2 : ℝ

/-- The power estimate of plugin.go:
`func (p PowerModelArgs) Estimate(x float64) float64
 { return p.K0 + p.K1*math.Exp(-p.K2*x) }`. -/
noncomputable def PowerModelArgs.Estimate (p : PowerModelArgs) (x : ℝ) : ℝ :=
  p.k0 + p.k1 * Real.exp (-p.k2 * x)

/-- The power estimate of the alternate plugin listing embedded in the
repository README (src/unnamed/part_000):
`return p.K0 + p.K1*(1.0-math.Exp(-p.K2*x))`. -/
noncomputable def PowerModelArgs.EstimateAlt (p : PowerModelArgs) (x : ℝ) : ℝ :=
  p.k0 + p.k1 * (1 - Real.exp (-p.k2 * x))

/-- Plugin state after construction, mirroring `type PowerAware struct`:
the weights map and costCriteria map of plugin.go have the four fixed keys
"pods", "cpu", "memory", "power", modelled as one field per key. -/
structure PowerAware where
  wPods : ℝ
  wCpu : ℝ
  wMem : ℝ
  wPower : ℝ
  cPods : Bool
  cCpu : Bool
  cMem : Bool
  cPower : Bool
  powerModel : PowerModelArgs

/-- `pl.getVal(v, k)` of plugin.go: read the field of a nodeVector selected
by a criterion key. -/
def getVal (v : nodeVector) : Crit → ℝ
  | Crit.pods => v.pods
  | Crit.cpu => v.cpu
  | Crit.mem => v.mem
  | Crit.power => v.power

/-- Lookup in the `weights` map of plugin.go (keys "pods", "cpu",
"memory", "power"). -/
def crWeight (pl : PowerAware) : Crit → ℝ
  | Crit.pods => pl.wPods
  | Crit.cpu => pl.wCpu
  | Crit.mem => pl.wMem
  | Crit.power => pl.wPower

/-- Lookup in the `costCriteria` map of plugin.go. -/
def crCost (pl : PowerAware) : Crit → Bool
  | Crit.pods => pl.cPods
  | Crit.cpu => pl.cCpu
  | Crit.mem => pl.cMem
  | Crit.power => pl.cPower

/-- The threshold 1e-9 used by safeDiv and by the closeness fallback in
plugin.go. -/
noncomputable def eps : ℝ := 1 / 1000000000

/-- `func safeDiv(n, d float64) float64` of plugin.go:
`if d < 1e-9 { return 0 }; return n / d`. -/
noncomputable def safeDiv (n d : ℝ) : ℝ :=
  if d < eps then 0 else n / d

/-- `func euclideanDist(a, b nodeVector) float64` of plugin.go. -/
noncomputable def euclideanDist (a b : nodeVector) : ℝ :=
  Real.sqrt ((a.pods - b.pods) ^ 2 + (a.cpu - b.cpu) ^ 2 +
    (a.mem - b.mem) ^ 2 + (a.power - b.power) ^ 2)

/-- One step of the per-criterion update of `getExtreme` in plugin.go:
`c` is the currently held extreme, `v` the incoming value; update to `v`
exactly when the Go update condition fires. -/
noncomputable def extreme1 (isCost isIdeal : Bool) (c v : ℝ) : ℝ :=
  if isIdeal then
    if (isCost = true ∧ v < c) ∨ (isCost = false ∧ v > c) then v else c
  else
    if (isCost = true ∧ v > c) ∨ (isCost = false ∧ v < c) then v else c

/-- `func (pl *PowerAware) getExtreme(curr, next nodeVector, isIdeal bool)`
of plugin.go: the loop over the four keys updates each field independently,
so it is the componentwise `extreme1`. -/
noncomputable def getExtreme (pl : PowerAware) (curr next : nodeVector)
    (isIdeal : Bool) : nodeVector :=
  { pods := extreme1 pl.cPods isIdeal curr.pods next.pods
    cpu := extreme1 pl.cCpu isIdeal curr.cpu next.cpu
    mem := extreme1 pl.cMem isIdeal curr.mem next.mem
    power := extreme1 pl.cPower isIdeal curr.power next.power }

/-- Euclidean norm of one criterion's raw values across the candidate set:
plugin.go accumulates `sum += v*v` over the node loop and takes
`math.Sqrt`. -/
noncomputable def denomOf (vals : List ℝ) : ℝ :=
  Real.sqrt ((vals.map fun v => v ^ 2).sum)

/-- The `denoms` nodeVector of plugin.go: per-criterion Euclidean norms of
the raw decision matrix. -/
noncomputable def denoms (rows : List (String × nodeVector)) : nodeVector :=
  { pods := denomOf (rows.map fun r => r.2.pods)
    cpu := denomOf (rows.map fun r => r.2.cpu)
    mem := denomOf (rows.map fun r => r.2.mem)
    power := denomOf (rows.map fun r => r.2.power) }

/-- The normalize-and-weight step of PreScore in plugin.go:
`weighted := nodeVector{ pods: safeDiv(v.pods, denoms.pods)*pl.weights["pods"], ... }`. -/
noncomputable def weightVec (pl : PowerAware) (den v : nodeVector) : nodeVector :=
  { pods := safeDiv v.pods den.pods * pl.wPods
    cpu := safeDiv v.cpu den.cpu * pl.wCpu
    mem := safeDiv v.mem den.mem * pl.wMem
    power := safeDiv v.power den.power * pl.wPower }

/-- The weighted decision matrix of PreScore in plugin.go, keyed by node
name. -/
noncomputable def weightedRows (pl : PowerAware)
    (rows : List (String × nodeVector)) : List (String × nodeVector) :=
  rows.map fun r => (r.1, weightVec pl (denoms rows) r.2)

/-- The ideal vector of PreScore in plugin.go: initialized to the first
weighted vector, then folded with `getExtreme(..., true)`. -/
noncomputable def idealOf (pl : PowerAware) (ws : List nodeVector) : nodeVector :=
  match ws with
  | [] => ⟨0, 0, 0, 0⟩
  | w :: rest => rest.foldl (fun a b => getExtreme pl a b true) w

/-- The negative (anti-ideal) vector of PreScore in plugin.go: folded with
`getExtreme(..., false)`. -/
noncomputable def negOf (pl : PowerAware) (ws : List nodeVector) : nodeVector :=
  match ws with
  | [] => ⟨0, 0, 0, 0⟩
  | w :: rest => rest.foldl (fun a b => getExtreme pl a b false) w

/-- Go `math.Round`: round to nearest, ties away from zero; the result is
converted exactly to int64 in plugin.go. -/
noncomputable def goRound (x : ℝ) : ℤ :=
  if 0 ≤ x then Int.floor (x + 1 / 2) else Int.ceil (x - 1 / 2)

/-- `framework.MaxNodeScore` of the scheduler framework. -/
noncomputable def MaxNodeScore : ℝ := 100

/-- The closeness coefficient of PreScore in plugin.go:
`closeness := 0.5; if (dPlus+dMinus) > 1e-9 { closeness = dMinus/(dPlus+dMinus) }`. -/
noncomputable def closenessOf (v idl neg : nodeVector) : ℝ :=
  if euclideanDist v idl + euclideanDist v neg > eps then
    euclideanDist v neg / (euclideanDist v idl + euclideanDist v neg)
  else (1 : ℝ) / 2

/-- The full ranking pass of PreScore in plugin.go from the raw decision
matrix to the score table:
`scores[name] = int64(math.Round(closeness * float64(framework.MaxNodeScore)))`. -/
noncomputable def scoresOfRaw (pl : PowerAware)
    (rows : List (String × nodeVector)) : List (String × ℤ) :=
  (weightedRows pl rows).map fun r =>
    (r.1, goRound (closenessOf r.2
      (idealOf pl ((weightedRows pl rows).map Prod.snd))
      (negOf pl ((weightedRows pl rows).map Prod.snd)) * MaxNodeScore))

/-- Candidate node snapshot, mirroring the fields of framework.NodeInfo
read by PreScore: `len(n.Pods)`, `n.Allocatable.MilliCPU`,
`n.Allocatable.Memory`, `n.Requested.MilliCPU`, `n.Requested.Memory`,
`n.Node().Name`. -/
structure NodeInfo where
  name : String
  podCount : ℕ
  allocMilliCPU : ℤ
  allocMemory : ℤ
  reqMilliCPU : ℤ
  reqMemory : ℤ

/-- The raw metric vector one node contributes to the decision matrix in
PreScore of plugin.go (current-state snapshot, power derived from the cpu
utilization). -/
noncomputable def rawVector (pl : PowerAware) (n : NodeInfo) : nodeVector :=
  { pods := (n.podCount : ℝ)
    cpu := if 0 < n.allocMilliCPU then (n.reqMilliCPU : ℝ) / (n.allocMilliCPU : ℝ) else 0
    mem := if 0 < n.allocMemory then (n.reqMemory : ℝ) / (n.allocMemory : ℝ) else 0
    power := pl.powerModel.Estimate
      (if 0 < n.allocMilliCPU then (n.reqMilliCPU : ℝ) / (n.allocMilliCPU : ℝ) else 0) }

/-- The raw decision matrix built by the first loop of PreScore in
plugin.go, keyed by node name. -/
noncomputable def rawRows (pl : PowerAware) (nodes : List NodeInfo) :
    List (String × nodeVector) :=
  nodes.map fun n => (n.name, rawVector pl n)

/-- `func (pl *PowerAware) PreScore(...)` of plugin.go.  The incoming pod
is passed (as its aggregate requested cpu and memory) but plugin.go never
reads it: scoring uses the current node state only.  An empty candidate
list returns early without writing any score table (modelled as `none`). -/
noncomputable def preScore (pl : PowerAware) (podCPU podMem : ℤ)
    (nodes : List NodeInfo) : Option (List (String × ℤ)) :=
  if nodes.isEmpty then none
  else some (scoresOfRaw pl (rawRows pl nodes))

/-- `func (pl *PowerAware) Score(...)` of plugin.go: a failed cycle-state
read (no table written) returns 0; a Go map read of a missing node name
returns the zero value 0. -/
noncomputable def scoreQuery (st : Option (List (String × ℤ)))
    (nodeName : String) : ℤ :=
  match st with
  | none => 0
  | some tbl => (tbl.lookup nodeName).getD 0

/-- ASCII case folding of one character (Lean's Char.toLower lowers
exactly the ASCII uppercase range, matching Go's folding on ASCII input). -/
def foldCase (s : String) : List Char :=
  s.toList.map Char.toLower

/-- Model of Go `strings.EqualFold` on ASCII strings: equality up to case
folding. -/
def goEqualFold (s t : String) : Bool :=
  foldCase s == foldCase t

/-- Criterion configuration, mirroring `type CriteriaConfig struct
{ Weight float64; Type string }` of plugin.go. -/
structure CriteriaConfig where
  weight : ℝ
  typeStr : String

/-- Decoded plugin arguments, mirroring `type PowerAwareArgs struct` of
plugin.go. -/
structure PowerAwareArgs where
  podLoadBalancingCriteria : CriteriaConfig
  cpuCriteria : CriteriaConfig
  memCriteria : CriteriaConfig
  powerCriteria : CriteriaConfig
  powerModel : PowerModelArgs

/-- The built-in defaults of `New` in plugin.go (used when no configuration
is decoded). -/
noncomputable def defaultArgs : PowerAwareArgs :=
  { podLoadBalancingCriteria := ⟨0.2, "Cost"⟩
    cpuCriteria := ⟨0.2, "Cost"⟩
    memCriteria := ⟨0.2, "Cost"⟩
    powerCriteria := ⟨0.4, "Cost"⟩
    powerModel := ⟨150, 100, 3⟩ }

/-- The polarity resolution of `New` in plugin.go:
`costMap[k] = strings.EqualFold(c.Type, "Cost")`. -/
def resolveCost (typeStr : String) : Bool :=
  goEqualFold typeStr "Cost"

/-- `func New(...)` of plugin.go after argument decoding: builds the
weights and costCriteria maps with
`assign := func(k string, c CriteriaConfig) { weights[k] = c.Weight;
 costMap[k] = strings.EqualFold(c.Type, "Cost") }`. -/
noncomputable def New (arg : PowerAwareArgs) : PowerAware :=
  { wPods := arg.podLoadBalancingCriteria.weight
    wCpu := arg.cpuCriteria.weight
    wMem := arg.memCriteria.weight
    wPower := arg.powerCriteria.weight
    cPods := resolveCost arg.podLoadBalancingCriteria.typeStr
    cCpu := resolveCost arg.cpuCriteria.typeStr
    cMem := resolveCost arg.memCriteria.typeStr
    cPower := resolveCost arg.powerCriteria.typeStr
    powerModel := arg.powerModel }

/-! Section: Derived views of the pipeline -/

/-- The weighted vector of a single node inside one attempt. -/
noncomputable def wvec (pl : PowerAware) (rows : List (String × nodeVector))
    (v : nodeVector) : nodeVector :=
  weightVec pl (denoms rows) v

/-- The ideal reference vector of one attempt. -/
noncomputable def idealVec (pl : PowerAware)
    (rows : List (String × nodeVector)) : nodeVector :=
  idealOf pl ((weightedRows pl rows).map Prod.snd)

/-- The anti-ideal reference vector of one attempt. -/
noncomputable def negVec (pl : PowerAware)
    (rows : List (String × nodeVector)) : nodeVector :=
  negOf pl ((weightedRows pl rows).map Prod.snd)

/-- The integer score one raw vector receives inside one attempt. -/
noncomputable def scoreValue (pl : PowerAware)
    (rows : List (String × nodeVector)) (v : nodeVector) : ℤ :=
  goRound (closenessOf (wvec pl rows v) (idealVec pl rows) (negVec pl rows) * MaxNodeScore)

/-- The fold of `getExtreme` over the weighted matrix, with the first
element as the initial accumulator (the `first` flag of plugin.go). -/
noncomputable def extremeOf (pl : PowerAware) (ii : Bool) :
    List nodeVector → nodeVector
  | [] => ⟨0, 0, 0, 0⟩
  | w :: rest => rest.foldl (fun a b => getExtreme pl a b ii) w

/-! Section: Concrete scenarios used as inputs of witnesses and counterexamples -/

/-- Configuration with only the cpu criterion weighted (weight 1, polarity
Benefit, all other weights 0), as in the spec's concrete scenario. -/
noncomputable def pl9 : PowerAware :=
  ⟨0, 1, 0, 0, false, false, false, false, ⟨0, 0, 0⟩⟩

/-- Raw vector of node A in the spec's concrete scenario: cpu 0.2. -/
noncomputable def vA9 : nodeVector := ⟨0, 0.2, 0, 0⟩

/-- Raw vector of node B in the spec's concrete scenario: cpu 0.8. -/
noncomputable def vB9 : nodeVector := ⟨0, 0.8, 0, 0⟩

/-- The two-node decision matrix of the spec's concrete scenario. -/
noncomputable def rows9 : List (String × nodeVector) := [("A", vA9), ("B", vB9)]

/-- Configuration with tiny positive benefit weights on cpu and mem
(1.2e-9 and 2.4e-9), used to reach the epsilon fallback of the scorer. -/
noncomputable def pl8 : PowerAware :=
  ⟨0, 3 / 2500000000, 3 / 1250000000, 0, false, false, false, false, ⟨0, 0, 0⟩⟩

/-- Node X: cpu 2, mem 2 (identical to Y except on cpu). -/
noncomputable def vX8 : nodeVector := ⟨0, 2, 2, 0⟩

/-- Node Y: cpu 1, mem 2. -/
noncomputable def vY8 : nodeVector := ⟨0, 1, 2, 0⟩

/-- Node Z: cpu 2, mem 1. -/
noncomputable def vZ8 : nodeVector := ⟨0, 2, 1, 0⟩

/-- Three-node decision matrix in which the epsilon fallback fires for X
but not for Y. -/
noncomputable def rows8 : List (String × nodeVector) :=
  [("X", vX8), ("Y", vY8), ("Z", vZ8)]

/-- A single candidate node at 50 percent cpu and memory utilization. -/
def nodeW : NodeInfo := ⟨"n1", 0, 1000, 1000, 500, 500⟩

/-- The all-ones raw vector. -/
noncomputable def vOne : nodeVector := ⟨1, 1, 1, 1⟩

/-- Candidate node named A. -/
def nodeA6 : NodeInfo := ⟨"A", 0, 1000, 1000, 100, 100⟩

/-- Candidate node named B. -/
def nodeB6 : NodeInfo := ⟨"B", 0, 1000, 1000, 200, 200⟩

/-- Plugin arguments whose four criteria all carry the unrecognized
polarity string Banana. -/
noncomputable def args4 : PowerAwareArgs :=
  ⟨⟨0.2, "Banana"⟩, ⟨0.2, "Banana"⟩, ⟨0.2, "Banana"⟩, ⟨0.4, "Banana"⟩,
    ⟨150, 100, 3⟩⟩

theorem idealOf_eq_extremeOf (pl : PowerAware) (ws : List nodeVector) :
    idealOf pl ws = extremeOf pl true ws := by
  cases ws <;> rfl

theorem negOf_eq_extremeOf (pl : PowerAware) (ws : List nodeVector) :
    negOf pl ws = extremeOf pl false ws := by
  cases ws <;> rfl

theorem scoresOfRaw_eq_map (pl : PowerAware) (rows : List (String × nodeVector)) :
    scoresOfRaw pl rows = rows.map fun r => (r.1, scoreValue pl rows r.2) := by
  simp only [scoresOfRaw, weightedRows, List.map_map, scoreValue, wvec, idealVec, negVec,
    weightedRows]
  rfl

/-! Section: Elementary facts -/

theorem eps_pos : 0 < eps := by norm_num [eps]

theorem safeDiv_of_lt {n d : ℝ} (h : d < eps) : safeDiv n d = 0 := by
  simp [safeDiv, h]

theorem safeDiv_of_le {n d : ℝ} (h : eps ≤ d) : safeDiv n d = n / d := by
  rw [safeDiv, if_neg (not_lt.mpr h)]

theorem euclideanDist_nonneg (a b : nodeVector) : 0 ≤ euclideanDist a b :=
  Real.sqrt_nonneg _

theorem euclideanDist_self (a : nodeVector) : euclideanDist a a = 0 := by
  simp [euclideanDist]

theorem ite_lt_eq_min (c v : ℝ) : (if v < c then v else c) = min c v := by
  by_cases h : v < c
  · rw [if_pos h, min_eq_right h.le]
  · rw [if_neg h, min_eq_left (not_lt.mp h)]

theorem ite_gt_eq_max (c v : ℝ) : (if v > c then v else c) = max c v := by
  by_cases h : v > c
  · rw [if_pos h, max_eq_right h.le]
  · rw [if_neg h, max_eq_left (not_lt.mp h)]

theorem extreme1_eq_minmax (flag ii : Bool) (c v : ℝ) :
    extreme1 flag ii c v = if flag = ii then min c v else max c v := by
  cases flag <;> cases ii <;>
    simp only [extreme1, Bool.true_eq_false, Bool.false_eq_true, false_and, true_and,
      false_or, or_false, and_true, and_false, if_true, if_false, reduceIte] <;>
    first
      | exact ite_lt_eq_min c v
      | exact ite_gt_eq_max c v

theorem getVal_getExtreme (pl : PowerAware) (a b : nodeVector) (ii : Bool) (k : Crit) :
    getVal (getExtreme pl a b ii) k =
      extreme1 (crCost pl k) ii (getVal a k) (getVal b k) := by
  cases k <;> rfl

theorem getVal_weightVec (pl : PowerAware) (den v : nodeVector) (k : Crit) :
    getVal (weightVec pl den v) k =
      safeDiv (getVal v k) (getVal den k) * crWeight pl k := by
  cases k <;> rfl

theorem nodeVector_ext {a b : nodeVector}
    (h : ∀ k : Crit, getVal a k = getVal b k) : a = b := by
  cases a
  cases b
  have h1 := h Crit.pods
  have h2 := h Crit.cpu
  have h3 := h Crit.mem
  have h4 := h Crit.power
  simp only [getVal] at h1 h2 h3 h4
  simp [h1, h2, h3, h4]

theorem getExtreme_self (pl : PowerAware) (w : nodeVector) (ii : Bool) :
    getExtreme pl w w ii = w := by
  apply nodeVector_ext
  intro k
  rw [getVal_getExtreme, extreme1_eq_minmax]
  by_cases h : crCost pl k = ii <;> simp [h]

/-! Section: Componentwise description of the extreme fold -/

theorem foldl_getExtreme_comp (pl : PowerAware) (ii : Bool) (k : Crit)
    (rest : List nodeVector) (w : nodeVector) :
    getVal (rest.foldl (fun a b => getExtreme pl a b ii) w) k =
      (rest.map fun v => getVal v k).foldl
        (fun c v => extreme1 (crCost pl k) ii c v) (getVal w k) := by
  induction rest generalizing w with
  | nil => rfl
  | cons c t ih =>
    simp only [List.foldl_cons, List.map_cons, ih, getVal_getExtreme]

theorem foldl_absorb {f : ℝ → ℝ → ℝ}
    (hc : ∀ a b, f a b = f b a) (ha : ∀ a b c, f (f a b) c = f a (f b c))
    (hi : ∀ a, f a a = a)
    {a : ℝ} (l : List ℝ) (hmem : a ∈ l) (b : ℝ) :
    l.foldl f (f b a) = l.foldl f b := by
  induction l generalizing b with
  | nil => cases hmem
  | cons c t ih =>
    rcases List.mem_cons.mp hmem with h | h
    · subst h
      simp only [List.foldl_cons]
      rw [ha b a a, hi a]
    · simp only [List.foldl_cons]
      have hswap : f (f b a) c = f (f b c) a := by
        rw [ha b a c, hc a c, ← ha b c a]
      rw [hswap, ih h (f b c)]

theorem foldl_head_perm {f : ℝ → ℝ → ℝ}
    (hc : ∀ a b, f a b = f b a) (ha : ∀ a b c, f (f a b) c = f a (f b c))
    (hi : ∀ a, f a a = a)
    {x y : ℝ} {xs ys : List ℝ} (p : (x :: xs).Perm (y :: ys)) :
    xs.foldl f x = ys.foldl f y := by
  have h1 : (x :: xs).foldl f x = xs.foldl f x := by
    simp only [List.foldl_cons, hi]
  have h2 : (x :: xs).foldl f x = (y :: ys).foldl f x := by
    refine p.foldl_eq' ?_ x
    intro u _ v _ z
    rw [ha z u v, hc u v, ← ha z v u]
  have hx : x ∈ y :: ys := p.mem_iff.mp (List.mem_cons_self x xs)
  rcases List.mem_cons.mp hx with h | h
  · subst h
    rw [← h1, h2]
    simp only [List.foldl_cons, hi]
  · rw [← h1, h2]
    simp only [List.foldl_cons]
    rw [hc x y]
    exact foldl_absorb hc ha hi ys h y

theorem le_foldl_max (l : List ℝ) (a : ℝ) : a ≤ l.foldl max a := by
  induction l generalizing a with
  | nil => exact le_refl a
  | cons c t ih => exact le_trans (le_max_left a c) (ih (max a c))

theorem mem_le_foldl_max {l : List ℝ} {b : ℝ} (h : b ∈ l) (a : ℝ) :
    b ≤ l.foldl max a := by
  induction l generalizing a with
  | nil => cases h
  | cons c t ih =>
    rcases List.mem_cons.mp h with h' | h'
    · subst h'
      exact le_trans (le_max_right a b) (le_foldl_max t _)
    · exact ih h' _

theorem foldl_min_le (l : List ℝ) (a : ℝ) : l.foldl min a ≤ a := by
  induction l generalizing a with
  | nil => exact le_refl a
  | cons c t ih => exact le_trans (ih (min a c)) (min_le_left a c)

theorem foldl_min_le_mem {l : List ℝ} {b : ℝ} (h : b ∈ l) (a : ℝ) :
    l.foldl min a ≤ b := by
  induction l generalizing a with
  | nil => cases h
  | cons c t ih =>
    rcases List.mem_cons.mp h with h' | h'
    · subst h'
      exact le_trans (foldl_min_le t _) (min_le_right a b)
    · exact ih h' _

theorem extremeOf_perm (pl : PowerAware) (ii : Bool) {l l' : List nodeVector}
    (p : l.Perm l') : extremeOf pl ii l = extremeOf pl ii l' := by
  cases l with
  | nil =>
    have h : l' = [] := p.symm.eq_nil
    subst h
    rfl
  | cons w rest =>
    cases l' with
    | nil =>
      have h := p.eq_nil
      simp at h
    | cons w' rest' =>
      apply nodeVector_ext
      intro k
      show getVal (rest.foldl (fun a b => getExtreme pl a b ii) w) k =
        getVal (rest'.foldl (fun a b => getExtreme pl a b ii) w') k
      rw [foldl_getExtreme_comp, foldl_getExtreme_comp]
      have pm : ((getVal w k) :: rest.map fun v => getVal v k).Perm
          ((getVal w' k) :: rest'.map fun v => getVal v k) := by
        have hmap := p.map fun v => getVal v k
        simpa using hmap
      by_cases h : crCost pl k = ii
      · have hfun : (fun c v => extreme1 (crCost pl k) ii c v) =
            fun c v => min c v := by
          funext c v
          rw [extreme1_eq_minmax, if_pos h]
        rw [hfun]
        exact foldl_head_perm min_comm min_assoc min_self pm
      · have hfun : (fun c v => extreme1 (crCost pl k) ii c v) =
            fun c v => max c v := by
          funext c v
          rw [extreme1_eq_minmax, if_neg h]
        rw [hfun]
        exact foldl_head_perm max_comm max_assoc max_self pm

/-- The extreme fold is bounded by every member of the weighted matrix: a
min-direction extreme is below each member, a max-direction one above. -/
theorem extremeOf_bound (pl : PowerAware) (ii : Bool) (k : Crit)
    {ws : List nodeVector} {u : nodeVector} (hu : u ∈ ws) :
    (crCost pl k = ii → getVal (extremeOf pl ii ws) k ≤ getVal u k) ∧
      (crCost pl k ≠ ii → getVal u k ≤ getVal (extremeOf pl ii ws) k) := by
  cases ws with
  | nil => cases hu
  | cons w rest =>
    have hshow : getVal (extremeOf pl ii (w :: rest)) k =
        (rest.map fun v => getVal v k).foldl
          (fun c v => extreme1 (crCost pl k) ii c v) (getVal w k) :=
      foldl_getExtreme_comp pl ii k rest w
    constructor
    · intro hcost
      have hfun : (fun c v => extreme1 (crCost pl k) ii c v) =
          fun c v => min c v := by
        funext c v
        rw [extreme1_eq_minmax, if_pos hcost]
      rw [hshow, hfun]
      rcases List.mem_cons.mp hu with h | h
      · subst h
        exact foldl_min_le _ _
      · exact foldl_min_le_mem
          (show getVal u k ∈ rest.map fun v => getVal v k from
            List.mem_map_of_mem _ h) _
    · intro hcost
      have hfun : (fun c v => extreme1 (crCost pl k) ii c v) =
          fun c v => max c v := by
        funext c v
        rw [extreme1_eq_minmax, if_neg hcost]
      rw [hshow, hfun]
      rcases List.mem_cons.mp hu with h | h
      · subst h
        exact le_foldl_max _ _
      · exact mem_le_foldl_max
          (show getVal u k ∈ rest.map fun v => getVal v k from
            List.mem_map_of_mem _ h) _

/-! Section: Permutation invariance of the pipeline stages -/

theorem denoms_perm {rows rows' : List (String × nodeVector)}
    (p : rows.Perm rows') : denoms rows = denoms rows' := by
  have h : ∀ g : String × nodeVector → ℝ,
      denomOf (rows.map g) = denomOf (rows'.map g) := by
    intro g
    unfold denomOf
    rw [((p.map g).map fun v => v ^ 2).sum_eq]
  unfold denoms
  rw [h fun r => r.2.pods, h fun r => r.2.cpu, h fun r => r.2.mem,
    h fun r => r.2.power]

theorem weightedRows_perm (pl : PowerAware)
    {rows rows' : List (String × nodeVector)} (p : rows.Perm rows') :
    (weightedRows pl rows).Perm (weightedRows pl rows') := by
  unfold weightedRows
  rw [denoms_perm p]
  exact p.map _

theorem idealVec_perm (pl : PowerAware)
    {rows rows' : List (String × nodeVector)} (p : rows.Perm rows') :
    idealVec pl rows = idealVec pl rows' := by
  unfold idealVec
  rw [idealOf_eq_extremeOf, idealOf_eq_extremeOf]
  exact extremeOf_perm pl true ((weightedRows_perm pl p).map Prod.snd)

theorem negVec_perm (pl : PowerAware)
    {rows rows' : List (String × nodeVector)} (p : rows.Perm rows') :
    negVec pl rows = negVec pl rows' := by
  unfold negVec
  rw [negOf_eq_extremeOf, negOf_eq_extremeOf]
  exact extremeOf_perm pl false ((weightedRows_perm pl p).map Prod.snd)

theorem scoreValue_perm (pl : PowerAware)
    {rows rows' : List (String × nodeVector)} (p : rows.Perm rows')
    (v : nodeVector) : scoreValue pl rows v = scoreValue pl rows' v := by
  unfold scoreValue wvec
  rw [denoms_perm p, idealVec_perm pl p, negVec_perm pl p]

theorem scoresOfRaw_perm (pl : PowerAware)
    {rows rows' : List (String × nodeVector)} (p : rows.Perm rows') :
    (scoresOfRaw pl rows).Perm (scoresOfRaw pl rows') := by
  rw [scoresOfRaw_eq_map, scoresOfRaw_eq_map]
  have h : (rows.map fun r => (r.1, scoreValue pl rows r.2)).Perm
      (rows'.map fun r => (r.1, scoreValue pl rows r.2)) := p.map _
  refine h.trans (List.Perm.of_eq ?_)
  apply List.map_congr_left
  intro r _
  rw [scoreValue_perm pl p]

/-- Association-list lookup is determined by the underlying multiset of
entries once the keys are duplicate-free. -/
theorem lookup_eq_of_perm {β : Type} {l l' : List (String × β)}
    (p : l.Perm l') :
    (l.map Prod.fst).Nodup → ∀ k : String, l.lookup k = l'.lookup k := by
  induction p with
  | nil =>
    intro _ k
    rfl
  | cons x p ih =>
    intro nd k
    rcases x with ⟨a, b⟩
    rw [List.map_cons] at nd
    cases h : k == a <;>
      simp only [List.lookup, h]
    exact ih (List.nodup_cons.mp nd).2 k
  | swap x y p =>
    intro nd k
    rcases x with ⟨a, b⟩
    rcases y with ⟨c, d⟩
    rw [List.map_cons, List.map_cons] at nd
    have hcm := (List.nodup_cons.mp nd).1
    have hne : c ≠ a := by
      intro heq
      apply hcm
      rw [heq]
      exact List.mem_cons_self _ _
    cases ha : k == a <;> cases hc : k == c <;>
      simp only [List.lookup, ha, hc]
    exact absurd ((beq_iff_eq.mp hc).symm.trans (beq_iff_eq.mp ha)) hne
  | trans p₁ p₂ ih₁ ih₂ =>
    intro nd k
    have nd₂ := ((p₁.map Prod.fst).nodup_iff).mp nd
    rw [ih₁ nd k, ih₂ nd₂ k]

/-! Section: Facts about rounding and the closeness coefficient -/

theorem goRound_mono {x y : ℝ} (h0 : 0 ≤ x) (h : x ≤ y) :
    goRound x ≤ goRound y := by
  unfold goRound
  rw [if_pos h0, if_pos (h0.trans h)]
  exact Int.floor_le_floor (by linarith)

theorem goRound_eq_of_bounds {x : ℝ} {z : ℤ} (h0 : 0 ≤ x)
    (h1 : (z : ℝ) ≤ x + 1 / 2) (h2 : x + 1 / 2 < z + 1) : goRound x = z := by
  unfold goRound
  rw [if_pos h0]
  exact Int.floor_eq_iff.mpr ⟨h1, h2⟩

theorem closenessOf_nonneg (v idl neg : nodeVector) :
    0 ≤ closenessOf v idl neg := by
  unfold closenessOf
  split_ifs with h
  · exact div_nonneg (euclideanDist_nonneg _ _)
      (le_of_lt (lt_trans eps_pos h))
  · norm_num

theorem closenessOf_le {v w idl neg : nodeVector}
    (hP : euclideanDist w idl ≤ euclideanDist v idl)
    (hM : euclideanDist v neg ≤ euclideanDist w neg)
    (hv : eps < euclideanDist v idl + euclideanDist v neg)
    (hw : eps < euclideanDist w idl + euclideanDist w neg) :
    closenessOf v idl neg ≤ closenessOf w idl neg := by
  unfold closenessOf
  rw [if_pos hv, if_pos hw]
  have h0v : 0 < euclideanDist v idl + euclideanDist v neg := lt_trans eps_pos hv
  have h0w : 0 < euclideanDist w idl + euclideanDist w neg := lt_trans eps_pos hw
  rw [div_le_div_iff h0v h0w]
  have hVN := euclideanDist_nonneg v neg
  have hWI := euclideanDist_nonneg w idl
  nlinarith

theorem dist_le_of_sq_le {a b c : nodeVector}
    (h : ∀ k : Crit, (getVal a k - getVal c k) ^ 2 ≤ (getVal b k - getVal c k) ^ 2) :
    euclideanDist a c ≤ euclideanDist b c := by
  have h1 := h Crit.pods
  have h2 := h Crit.cpu
  have h3 := h Crit.mem
  have h4 := h Crit.power
  simp only [getVal] at h1 h2 h3 h4
  unfold euclideanDist
  apply Real.sqrt_le_sqrt
  linarith

theorem closenessOf_eq_ite (v idl neg : nodeVector) :
    closenessOf v idl neg =
      if euclideanDist v idl + euclideanDist v neg ≤ eps then (1 : ℝ) / 2
      else euclideanDist v neg /
        (euclideanDist v idl + euclideanDist v neg) := by
  unfold closenessOf
  rcases le_or_lt (euclideanDist v idl + euclideanDist v neg) eps with h | h
  · rw [if_neg (not_lt.mpr h), if_pos h]
  · rw [if_pos h, if_neg (not_le.mpr h)]

theorem lookup_none {β : Type} {l : List (String × β)} {nm : String}
    (h : nm ∉ l.map Prod.fst) : l.lookup nm = none := by
  induction l with
  | nil => rfl
  | cons x t ih =>
    rcases x with ⟨a, b⟩
    rw [List.map_cons, List.mem_cons] at h
    push_neg at h
    cases hk : nm == a with
    | false =>
      simp only [List.lookup, hk]
      exact ih h.2
    | true => exact absurd (beq_iff_eq.mp hk) h.1

theorem foldl_getExtreme_const (pl : PowerAware) (ii : Bool) {w : nodeVector} :
    ∀ rest : List nodeVector, (∀ u ∈ rest, u = w) →
      rest.foldl (fun a b => getExtreme pl a b ii) w = w := by
  intro rest
  induction rest with
  | nil => intro _; rfl
  | cons c t ih =>
    intro hall
    have hc : c = w := hall c (List.mem_cons_self _ _)
    subst hc
    simp only [List.foldl_cons, getExtreme_self]
    exact ih fun u hu => hall u (List.mem_cons_of_mem _ hu)

theorem extremeOf_const (pl : PowerAware) (ii : Bool)
    {ws : List nodeVector} {w : nodeVector} (hw : w ∈ ws)
    (hall : ∀ u ∈ ws, u = w) : extremeOf pl ii ws = w := by
  cases ws with
  | nil => cases hw
  | cons w0 rest =>
    have h0 : w0 = w := hall w0 (List.mem_cons_self _ _)
    subst h0
    exact foldl_getExtreme_const pl ii rest
      fun u hu => hall u (List.mem_cons_of_mem _ hu)

/-! Section: Claim C1 -/

/-- C1: for every non-empty candidate set, each node of the weighted
matrix receives the integer score round(MaxScore times
dMinus/(dPlus+dMinus)), where dPlus and dMinus are its Euclidean
distances to the ideal and anti-ideal vector over the four weighted
criteria, and closeness 1/2 is used whenever dPlus + dMinus does not
exceed the epsilon 1e-9. -/
theorem C1_scorer_formula (pl : PowerAware) (podCPU podMem : ℤ)
    (nodes : List NodeInfo) (h : nodes ≠ []) :
    preScore pl podCPU podMem nodes =
      some ((weightedRows pl (rawRows pl nodes)).map fun r =>
        (r.1, goRound (MaxNodeScore *
          (if euclideanDist r.2 (idealVec pl (rawRows pl nodes)) +
              euclideanDist r.2 (negVec pl (rawRows pl nodes)) ≤ eps
            then (1 : ℝ) / 2
            else euclideanDist r.2 (negVec pl (rawRows pl nodes)) /
              (euclideanDist r.2 (idealVec pl (rawRows pl nodes)) +
                euclideanDist r.2 (negVec pl (rawRows pl nodes))))))) := by
  unfold preScore
  rw [if_neg (by simpa [List.isEmpty_iff] using h)]
  congr 1
  unfold scoresOfRaw
  apply List.map_congr_left
  intro r _
  have hcl : closenessOf r.2 (idealVec pl (rawRows pl nodes))
      (negVec pl (rawRows pl nodes)) =
      if euclideanDist r.2 (idealVec pl (rawRows pl nodes)) +
          euclideanDist r.2 (negVec pl (rawRows pl nodes)) ≤ eps
        then (1 : ℝ) / 2
        else euclideanDist r.2 (negVec pl (rawRows pl nodes)) /
          (euclideanDist r.2 (idealVec pl (rawRows pl nodes)) +
            euclideanDist r.2 (negVec pl (rawRows pl nodes))) :=
    closenessOf_eq_ite _ _ _
  show (r.1, goRound (closenessOf r.2 (idealVec pl (rawRows pl nodes))
      (negVec pl (rawRows pl nodes)) * MaxNodeScore)) =
    (r.1, goRound (MaxNodeScore * _))
  rw [hcl, mul_comm]

/-- Witness for C1 at a one-node candidate list. -/
theorem C1_scorer_formula_witness :
    preScore pl9 0 0 [nodeW] =
      some ((weightedRows pl9 (rawRows pl9 [nodeW])).map fun r =>
        (r.1, goRound (MaxNodeScore *
          (if euclideanDist r.2 (idealVec pl9 (rawRows pl9 [nodeW])) +
              euclideanDist r.2 (negVec pl9 (rawRows pl9 [nodeW])) ≤ eps
            then (1 : ℝ) / 2
            else euclideanDist r.2 (negVec pl9 (rawRows pl9 [nodeW])) /
              (euclideanDist r.2 (idealVec pl9 (rawRows pl9 [nodeW])) +
                euclideanDist r.2 (negVec pl9 (rawRows pl9 [nodeW]))))))) :=
  C1_scorer_formula pl9 0 0 [nodeW] (by simp)

/-! Section: Claim C2 -/

/-- C2: the raw metric vector of every candidate node is built from the
current-state snapshot only: pods is the assigned-workload count, cpu and
mem are requested/allocatable ratios guarded by positive allocatable, and
power is the power-model estimate of the cpu ratio; PreScore is
independent of the incoming workload's requests. -/
theorem C2_current_state_only (pl : PowerAware) (nodes : List NodeInfo)
    (podCPU podMem podCPU' podMem' : ℤ) (n : NodeInfo) (hn : n ∈ nodes) :
    (n.name,
      ({ pods := (n.podCount : ℝ)
         cpu := if 0 < n.allocMilliCPU then
             (n.reqMilliCPU : ℝ) / (n.allocMilliCPU : ℝ) else 0
         mem := if 0 < n.allocMemory then
             (n.reqMemory : ℝ) / (n.allocMemory : ℝ) else 0
         power := pl.powerModel.Estimate
           (if 0 < n.allocMilliCPU then
             (n.reqMilliCPU : ℝ) / (n.allocMilliCPU : ℝ) else 0) } :
        nodeVector)) ∈ rawRows pl nodes ∧
    preScore pl podCPU podMem nodes = preScore pl podCPU' podMem' nodes := by
  constructor
  · exact List.mem_map_of_mem _ hn
  · rfl

/-- Witness for C2 at a concrete one-node list. -/
theorem C2_current_state_only_witness :
    ("n1",
      ({ pods := ((0 : ℕ) : ℝ)
         cpu := if (0 : ℤ) < 1000 then ((500 : ℤ) : ℝ) / ((1000 : ℤ) : ℝ) else 0
         mem := if (0 : ℤ) < 1000 then ((500 : ℤ) : ℝ) / ((1000 : ℤ) : ℝ) else 0
         power := pl9.powerModel.Estimate
           (if (0 : ℤ) < 1000 then ((500 : ℤ) : ℝ) / ((1000 : ℤ) : ℝ) else 0) } :
        nodeVector)) ∈ rawRows pl9 [nodeW] ∧
    preScore pl9 0 0 [nodeW] = preScore pl9 7 9 [nodeW] :=
  C2_current_state_only pl9 [nodeW] 0 0 7 9 nodeW (List.mem_singleton.mpr rfl)

/-! Section: Claim C3 -/

/-- C3: per criterion, dividing every raw value by the criterion's
Euclidean norm yields normalized values whose squares sum to 1 whenever
the norm is at least the epsilon; when the norm is below the epsilon
(in particular when every raw value is 0) every normalized value is 0,
so no division against a zero or near-zero denominator ever happens. -/
theorem C3_normalization_invariant (vals : List ℝ) :
    (eps ≤ denomOf vals →
      (vals.map fun v => safeDiv v (denomOf vals) ^ 2).sum = 1) ∧
    (denomOf vals < eps → ∀ v ∈ vals, safeDiv v (denomOf vals) = 0) ∧
    ((∀ v ∈ vals, v = 0) → ∀ v ∈ vals, safeDiv v (denomOf vals) = 0) := by
  refine ⟨?_, ?_, ?_⟩
  · intro hD
    have hS0 : 0 ≤ (vals.map fun v => v ^ 2).sum := by
      apply List.sum_nonneg
      intro x hx
      rcases List.mem_map.mp hx with ⟨v, _, hv⟩
      rw [← hv]
      positivity
    have hD0 : 0 < denomOf vals := lt_of_lt_of_le eps_pos hD
    have hsq : denomOf vals ^ 2 = (vals.map fun v => v ^ 2).sum :=
      Real.sq_sqrt hS0
    have hmap : (vals.map fun v => safeDiv v (denomOf vals) ^ 2) =
        (vals.map fun v => v ^ 2).map fun s => s * (denomOf vals ^ 2)⁻¹ := by
      rw [List.map_map]
      apply List.map_congr_left
      intro v _
      show safeDiv v (denomOf vals) ^ 2 = v ^ 2 * (denomOf vals ^ 2)⁻¹
      rw [safeDiv_of_le hD, div_pow, div_eq_mul_inv]
    rw [hmap, List.sum_map_mul_right, List.map_id', ← hsq]
    exact mul_inv_cancel₀ (by positivity)
  · intro hD v _
    exact safeDiv_of_lt hD
  · intro hz v hv
    have hD : denomOf vals = 0 := by
      unfold denomOf
      have : (vals.map fun v => v ^ 2).sum = 0 := by
        apply List.sum_eq_zero
        intro x hx
        rcases List.mem_map.mp hx with ⟨u, hu, hxu⟩
        rw [← hxu, hz u hu]
        ring
      rw [this, Real.sqrt_zero]
    rw [hD]
    exact safeDiv_of_lt (by rw [hD] at *; exact eps_pos)

/-- Witness for C3: the criterion values 3 and 4 have norm 5 and the
normalized squares sum to 1. -/
theorem C3_normalization_invariant_witness :
    (([3, 4] : List ℝ).map fun v => safeDiv v (denomOf [3, 4]) ^ 2).sum = 1 := by
  have h5 : denomOf ([3, 4] : List ℝ) = 5 := by
    unfold denomOf
    have : ((([3, 4] : List ℝ).map fun v => v ^ 2).sum : ℝ) = 25 := by
      simp
      norm_num
    rw [this, show (25 : ℝ) = 5 ^ 2 by norm_num, Real.sqrt_sq (by norm_num)]
  exact (C3_normalization_invariant [3, 4]).1 (by rw [h5]; norm_num [eps])

/-! Section: Claim C5 -/

/-- C5: with positive k1 and k2, the README-variant formula
k0 + k1(1 - exp(-k2 u)) is strictly increasing in u while the plugin.go
formula k0 + k1 exp(-k2 u) is strictly decreasing, and the two variants
disagree at utilization 0. -/
theorem C5_power_model_variants (p : PowerModelArgs) (h1 : 0 < p.k1)
    (h2 : 0 < p.k2) :
    StrictMono p.EstimateAlt ∧ StrictAnti p.Estimate ∧
      p.Estimate 0 ≠ p.EstimateAlt 0 := by
  have hkey : ∀ u v : ℝ, u < v →
      Real.exp (-p.k2 * v) < Real.exp (-p.k2 * u) := by
    intro u v huv
    apply Real.exp_lt_exp.mpr
    nlinarith
  refine ⟨?_, ?_, ?_⟩
  · intro u v huv
    unfold PowerModelArgs.EstimateAlt
    nlinarith [hkey u v huv]
  · intro u v huv
    unfold PowerModelArgs.Estimate
    nlinarith [hkey u v huv]
  · unfold PowerModelArgs.Estimate PowerModelArgs.EstimateAlt
    rw [mul_zero, Real.exp_zero]
    intro hcontra
    nlinarith

/-- Witness for C5 at the default constants k0 150, k1 100, k2 3. -/
theorem C5_power_model_variants_witness :
    StrictMono (PowerModelArgs.EstimateAlt ⟨150, 100, 3⟩) ∧
      StrictAnti (PowerModelArgs.Estimate ⟨150, 100, 3⟩) ∧
      PowerModelArgs.Estimate ⟨150, 100, 3⟩ 0 ≠
        PowerModelArgs.EstimateAlt ⟨150, 100, 3⟩ 0 :=
  C5_power_model_variants ⟨150, 100, 3⟩ (by norm_num) (by norm_num)

/-! Section: Claim C7 -/

/-- C7: when all candidate raw vectors are identical (in particular for a
single candidate), the ideal and anti-ideal vectors collapse and every
node receives the score 50. -/
theorem C7_degenerate_all_fifty (pl : PowerAware)
    (rows : List (String × nodeVector))
    (hid : ∀ p ∈ rows, ∀ q ∈ rows, p.2 = q.2) :
    ∀ nm ∈ rows.map Prod.fst, (nm, (50 : ℤ)) ∈ scoresOfRaw pl rows := by
  intro nm hnm
  rcases List.mem_map.mp hnm with ⟨r, hr, hname⟩
  have hwmem : (r.1, wvec pl rows r.2) ∈ weightedRows pl rows :=
    List.mem_map_of_mem _ hr
  have hsmem : wvec pl rows r.2 ∈ (weightedRows pl rows).map Prod.snd :=
    List.mem_map_of_mem _ hwmem
  have hall : ∀ u ∈ (weightedRows pl rows).map Prod.snd,
      u = wvec pl rows r.2 := by
    intro u hu
    rcases List.mem_map.mp hu with ⟨s, hs, hsnd⟩
    rcases List.mem_map.mp hs with ⟨q, hq, hqe⟩
    rw [← hsnd, ← hqe]
    show weightVec pl (denoms rows) q.2 = wvec pl rows r.2
    unfold wvec
    rw [hid q hq r hr]
  have hI : idealVec pl rows = wvec pl rows r.2 := by
    unfold idealVec
    rw [idealOf_eq_extremeOf]
    exact extremeOf_const pl true hsmem hall
  have hN : negVec pl rows = wvec pl rows r.2 := by
    unfold negVec
    rw [negOf_eq_extremeOf]
    exact extremeOf_const pl false hsmem hall
  have hcl : closenessOf (wvec pl rows r.2) (wvec pl rows r.2)
      (wvec pl rows r.2) = 1 / 2 := by
    unfold closenessOf
    rw [euclideanDist_self, if_neg (by norm_num [eps])]
  have hscore : scoreValue pl rows r.2 = 50 := by
    unfold scoreValue
    rw [hI, hN, hcl]
    rw [show (1 : ℝ) / 2 * MaxNodeScore = 50 by norm_num [MaxNodeScore]]
    exact goRound_eq_of_bounds (by norm_num) (by push_cast; norm_num)
      (by push_cast; norm_num)
  rw [scoresOfRaw_eq_map, ← hname, ← hscore]
  exact List.mem_map_of_mem _ hr

/-- Witness for C7 at a single-candidate list. -/
theorem C7_degenerate_all_fifty_witness :
    ("a", (50 : ℤ)) ∈ scoresOfRaw pl9 [("a", vOne)] :=
  C7_degenerate_all_fifty pl9 [("a", vOne)]
    (by
      intro p hp q hq
      rw [List.mem_singleton] at hp hq
      rw [hp, hq])
    "a" (by simp)

/-! Section: Claim C10 -/

/-- C10: querying a node name absent from the score table returns the
neutral fallback 0; an empty candidate list produces no score table at
all, and any subsequent query returns 0. -/
theorem C10_missing_node_neutral (tbl : List (String × ℤ)) (nm : String)
    (h : nm ∉ tbl.map Prod.fst) (pl : PowerAware) (podCPU podMem : ℤ) :
    scoreQuery (some tbl) nm = 0 ∧
      preScore pl podCPU podMem [] = none ∧ scoreQuery none nm = 0 := by
  refine ⟨?_, rfl, rfl⟩
  show (tbl.lookup nm).getD 0 = 0
  rw [lookup_none h]
  rfl

/-- Witness for C10 at a concrete one-entry table and absent key. -/
theorem C10_missing_node_neutral_witness :
    scoreQuery (some [("a", (7 : ℤ))]) "b" = 0 ∧
      preScore pl9 0 0 [] = none ∧ scoreQuery none "b" = 0 :=
  C10_missing_node_neutral [("a", 7)] "b" (by simp) pl9 0 0

/-! Section: Claim C6 -/

/-- C6: for a fixed configuration and workload, the score read for any
node name is unchanged when the candidate list is permuted (the pipeline
is a pure function, so repeated invocation on identical input is
trivially identical; this theorem settles the iteration-order part). -/
theorem C6_order_insensitive (pl : PowerAware) (podCPU podMem : ℤ)
    (nodes nodes' : List NodeInfo) (p : nodes.Perm nodes')
    (nd : (nodes.map NodeInfo.name).Nodup) (nm : String) :
    scoreQuery (preScore pl podCPU podMem nodes) nm =
      scoreQuery (preScore pl podCPU podMem nodes') nm := by
  by_cases h : nodes = []
  · subst h
    have h' : nodes' = [] := (List.Perm.nil_eq p).symm
    subst h'
    rfl
  · have h' : nodes' ≠ [] := by
      intro he
      subst he
      exact h p.eq_nil
    unfold preScore
    rw [if_neg (by simpa [List.isEmpty_iff] using h),
      if_neg (by simpa [List.isEmpty_iff] using h')]
    show ((scoresOfRaw pl (rawRows pl nodes)).lookup nm).getD 0 =
      ((scoresOfRaw pl (rawRows pl nodes')).lookup nm).getD 0
    have prows : (rawRows pl nodes).Perm (rawRows pl nodes') := p.map _
    have ndk : ((scoresOfRaw pl (rawRows pl nodes)).map Prod.fst).Nodup := by
      rw [scoresOfRaw_eq_map, List.map_map]
      unfold rawRows
      rw [List.map_map]
      exact nd
    rw [lookup_eq_of_perm (scoresOfRaw_perm pl prows) ndk nm]

/-- Witness for C6: swapping a two-node candidate list leaves the score
of node A unchanged. -/
theorem C6_order_insensitive_witness :
    scoreQuery (preScore pl9 0 0 [nodeA6, nodeB6]) "A" =
      scoreQuery (preScore pl9 0 0 [nodeB6, nodeA6]) "A" :=
  C6_order_insensitive pl9 0 0 [nodeA6, nodeB6] [nodeB6, nodeA6]
    (List.Perm.swap nodeB6 nodeA6 []) (by simp [nodeA6, nodeB6]) "A"

/-! Section: Claim C4 -/

theorem resolveCost_iff (s : String) :
    resolveCost s = true ↔ foldCase s = foldCase "Cost" := by
  unfold resolveCost goEqualFold
  exact beq_iff_eq

/-- C4 counterexample: in New of plugin.go the unrecognized polarity
string Banana (case-insensitively equal to neither Cost nor Benefit)
resolves to the cost flag false, i.e. to Benefit, refuting the claimed
default-to-Cost behaviour. -/
theorem C4_counterexample :
    goEqualFold "Banana" "Cost" = false ∧
      goEqualFold "Banana" "Benefit" = false ∧
      (New args4).cCpu = false := by
  refine ⟨by decide, by decide, ?_⟩
  show resolveCost "Banana" = false
  decide

/-- C4 amended: polarity matching in New is case-insensitive, and exactly
the strings case-folding to "cost" resolve to Cost; every other type
string — recognized or not — resolves deterministically to Benefit
(cost flag false). -/
theorem C4_amended_default_benefit (arg : PowerAwareArgs) (s t : String)
    (hst : foldCase s = foldCase t) :
    goEqualFold s "Cost" = goEqualFold t "Cost" ∧
      ((New arg).cCpu = true ↔
        foldCase arg.cpuCriteria.typeStr = foldCase "Cost") ∧
      (foldCase arg.cpuCriteria.typeStr ≠ foldCase "Cost" →
        (New arg).cCpu = false) ∧
      ((New arg).cPods = true ↔
        foldCase arg.podLoadBalancingCriteria.typeStr = foldCase "Cost") ∧
      ((New arg).cMem = true ↔
        foldCase arg.memCriteria.typeStr = foldCase "Cost") ∧
      ((New arg).cPower = true ↔
        foldCase arg.powerCriteria.typeStr = foldCase "Cost") := by
  refine ⟨?_, resolveCost_iff _, ?_, resolveCost_iff _, resolveCost_iff _,
    resolveCost_iff _⟩
  · unfold goEqualFold
    rw [hst]
  · intro hne
    have : ¬(New arg).cCpu = true := fun hc =>
      hne ((resolveCost_iff arg.cpuCriteria.typeStr).mp hc)
    exact Bool.not_eq_true _ |>.mp this

/-- Witness for C4 amended: COST and cost fold to the same string and
resolve identically. -/
theorem C4_amended_default_benefit_witness :
    goEqualFold "COST" "Cost" = goEqualFold "cost" "Cost" :=
  (C4_amended_default_benefit defaultArgs "COST" "cost" (by decide)).1

/-! Section: Claim C8 -/

theorem idealVec_eq (pl : PowerAware) (rows : List (String × nodeVector)) :
    idealVec pl rows = extremeOf pl true ((weightedRows pl rows).map Prod.snd) := by
  unfold idealVec
  exact idealOf_eq_extremeOf pl _

theorem negVec_eq (pl : PowerAware) (rows : List (String × nodeVector)) :
    negVec pl rows = extremeOf pl false ((weightedRows pl rows).map Prod.snd) := by
  unfold negVec
  exact negOf_eq_extremeOf pl _

/-- C8 (amended): within one attempt, consider two candidate nodes whose
raw vectors agree on every criterion except j, with positive weight on j,
and suppose neither node falls into the epsilon-degenerate closeness
fallback (dPlus + dMinus above 1e-9 for both).  Then when j is
Benefit-typed the node with the larger raw value on j never receives a
lower score, and when j is Cost-typed it never receives a higher one. -/
theorem C8_monotonicity_nondegenerate (pl : PowerAware)
    (rows : List (String × nodeVector)) (j : Crit) (nmX nmY : String)
    (vX vY : nodeVector) (hX : (nmX, vX) ∈ rows) (hY : (nmY, vY) ∈ rows)
    (hothers : ∀ k : Crit, k ≠ j → getVal vX k = getVal vY k)
    (hw : 0 < crWeight pl j) (hj : getVal vY j ≤ getVal vX j)
    (hndX : eps < euclideanDist (wvec pl rows vX) (idealVec pl rows) +
      euclideanDist (wvec pl rows vX) (negVec pl rows))
    (hndY : eps < euclideanDist (wvec pl rows vY) (idealVec pl rows) +
      euclideanDist (wvec pl rows vY) (negVec pl rows)) :
    (nmX, scoreValue pl rows vX) ∈ scoresOfRaw pl rows ∧
      (nmY, scoreValue pl rows vY) ∈ scoresOfRaw pl rows ∧
      (crCost pl j = false →
        scoreValue pl rows vY ≤ scoreValue pl rows vX) ∧
      (crCost pl j = true →
        scoreValue pl rows vX ≤ scoreValue pl rows vY) := by
  have hothersW : ∀ k : Crit, k ≠ j →
      getVal (wvec pl rows vX) k = getVal (wvec pl rows vY) k := by
    intro k hk
    show getVal (weightVec pl (denoms rows) vX) k =
      getVal (weightVec pl (denoms rows) vY) k
    rw [getVal_weightVec, getVal_weightVec, hothers k hk]
  have hjW : getVal (wvec pl rows vY) j ≤ getVal (wvec pl rows vX) j := by
    show getVal (weightVec pl (denoms rows) vY) j ≤
      getVal (weightVec pl (denoms rows) vX) j
    rw [getVal_weightVec, getVal_weightVec]
    by_cases hd : getVal (denoms rows) j < eps
    · rw [safeDiv_of_lt hd, safeDiv_of_lt hd]
    · have hd' : eps ≤ getVal (denoms rows) j := not_lt.mp hd
      have hd0 : 0 < getVal (denoms rows) j := lt_of_lt_of_le eps_pos hd'
      rw [safeDiv_of_le hd', safeDiv_of_le hd']
      exact mul_le_mul_of_nonneg_right ((div_le_div_right hd0).mpr hj) hw.le
  have hXw : wvec pl rows vX ∈ (weightedRows pl rows).map Prod.snd :=
    List.mem_map_of_mem _ (List.mem_map_of_mem _ hX)
  have hYw : wvec pl rows vY ∈ (weightedRows pl rows).map Prod.snd :=
    List.mem_map_of_mem _ (List.mem_map_of_mem _ hY)
  refine ⟨?_, ?_, ?_, ?_⟩
  · rw [scoresOfRaw_eq_map]
    exact List.mem_map_of_mem _ hX
  · rw [scoresOfRaw_eq_map]
    exact List.mem_map_of_mem _ hY
  · intro hc
    have hXI : getVal (wvec pl rows vX) j ≤ getVal (idealVec pl rows) j := by
      rw [idealVec_eq]
      exact (extremeOf_bound pl true j hXw).2 (by rw [hc]; decide)
    have hNY : getVal (negVec pl rows) j ≤ getVal (wvec pl rows vY) j := by
      rw [negVec_eq]
      exact (extremeOf_bound pl false j hYw).1 hc
    have hdP : euclideanDist (wvec pl rows vX) (idealVec pl rows) ≤
        euclideanDist (wvec pl rows vY) (idealVec pl rows) := by
      apply dist_le_of_sq_le
      intro k
      by_cases hk : k = j
      · subst hk
        nlinarith [hjW, hXI]
      · rw [hothersW k hk]
    have hdM : euclideanDist (wvec pl rows vY) (negVec pl rows) ≤
        euclideanDist (wvec pl rows vX) (negVec pl rows) := by
      apply dist_le_of_sq_le
      intro k
      by_cases hk : k = j
      · subst hk
        nlinarith [hjW, hNY]
      · rw [hothersW k hk]
    have hclose : closenessOf (wvec pl rows vY) (idealVec pl rows)
        (negVec pl rows) ≤ closenessOf (wvec pl rows vX) (idealVec pl rows)
        (negVec pl rows) := closenessOf_le hdP hdM hndY hndX
    show goRound _ ≤ goRound _
    apply goRound_mono
    · exact mul_nonneg (closenessOf_nonneg _ _ _) (by norm_num [MaxNodeScore])
    · exact mul_le_mul_of_nonneg_right hclose (by norm_num [MaxNodeScore])
  · intro hc
    have hIY : getVal (idealVec pl rows) j ≤ getVal (wvec pl rows vY) j := by
      rw [idealVec_eq]
      exact (extremeOf_bound pl true j hYw).1 hc
    have hXN : getVal (wvec pl rows vX) j ≤ getVal (negVec pl rows) j := by
      rw [negVec_eq]
      exact (extremeOf_bound pl false j hXw).2 (by rw [hc]; decide)
    have hdP : euclideanDist (wvec pl rows vY) (idealVec pl rows) ≤
        euclideanDist (wvec pl rows vX) (idealVec pl rows) := by
      apply dist_le_of_sq_le
      intro k
      by_cases hk : k = j
      · subst hk
        nlinarith [hjW, hIY]
      · rw [hothersW k hk]
    have hdM : euclideanDist (wvec pl rows vX) (negVec pl rows) ≤
        euclideanDist (wvec pl rows vY) (negVec pl rows) := by
      apply dist_le_of_sq_le
      intro k
      by_cases hk : k = j
      · subst hk
        nlinarith [hjW, hXN]
      · rw [hothersW k hk]
    have hclose : closenessOf (wvec pl rows vX) (idealVec pl rows)
        (negVec pl rows) ≤ closenessOf (wvec pl rows vY) (idealVec pl rows)
        (negVec pl rows) := closenessOf_le hdP hdM hndX hndY
    show goRound _ ≤ goRound _
    apply goRound_mono
    · exact mul_nonneg (closenessOf_nonneg _ _ _) (by norm_num [MaxNodeScore])
    · exact mul_le_mul_of_nonneg_right hclose (by norm_num [MaxNodeScore])

/-! Section: Concrete evaluation of the two-node cpu-only scenario -/

theorem euclideanDist_mk (p1 c1 m1 q1 p2 c2 m2 q2 : ℝ) :
    euclideanDist ⟨p1, c1, m1, q1⟩ ⟨p2, c2, m2, q2⟩ =
      Real.sqrt ((p1 - p2) ^ 2 + (c1 - c2) ^ 2 + (m1 - m2) ^ 2 +
        (q1 - q2) ^ 2) := rfl

theorem sqrt_eval_sq {x y : ℝ} (hy : 0 ≤ y) (h : x = y ^ 2) :
    Real.sqrt x = y := by
  rw [h, Real.sqrt_sq hy]

theorem sqrt_le_bound {x y : ℝ} (hy : 0 ≤ y) (h : x ≤ y ^ 2) :
    Real.sqrt x ≤ y := by
  calc Real.sqrt x ≤ Real.sqrt (y ^ 2) := Real.sqrt_le_sqrt h
  _ = y := Real.sqrt_sq hy

theorem sqrt68_sq : Real.sqrt 0.68 ^ 2 = 0.68 := Real.sq_sqrt (by norm_num)

theorem sqrt68_pos : 0 < Real.sqrt 0.68 := Real.sqrt_pos.mpr (by norm_num)

theorem sqrt68_lt_one : Real.sqrt 0.68 < 1 := by
  nlinarith [sqrt68_sq, sqrt68_pos]

theorem eps_lt_sqrt68 : eps < Real.sqrt 0.68 := by
  have h : (0.1 : ℝ) < Real.sqrt 0.68 := by
    nlinarith [sqrt68_sq, sqrt68_pos]
  calc eps < 0.1 := by norm_num [eps]
  _ < Real.sqrt 0.68 := h

theorem denoms_rows9 : denoms rows9 = ⟨0, Real.sqrt 0.68, 0, 0⟩ := by
  show nodeVector.mk (denomOf [0, 0]) (denomOf [0.2, 0.8])
    (denomOf [0, 0]) (denomOf [0, 0]) = _
  have h0 : denomOf [(0 : ℝ), 0] = 0 := by
    unfold denomOf
    norm_num
  have h1 : denomOf [(0.2 : ℝ), 0.8] = Real.sqrt 0.68 := by
    unfold denomOf
    norm_num
  rw [h0, h1]

theorem wv9A : weightVec pl9 ⟨0, Real.sqrt 0.68, 0, 0⟩ vA9 =
    ⟨0, 0.2 / Real.sqrt 0.68, 0, 0⟩ := by
  show nodeVector.mk (safeDiv 0 0 * 0) (safeDiv 0.2 (Real.sqrt 0.68) * 1)
    (safeDiv 0 0 * 0) (safeDiv 0 0 * 0) = _
  rw [safeDiv_of_le (le_of_lt eps_lt_sqrt68)]
  simp only [mul_zero, mul_one]

theorem wv9B : weightVec pl9 ⟨0, Real.sqrt 0.68, 0, 0⟩ vB9 =
    ⟨0, 0.8 / Real.sqrt 0.68, 0, 0⟩ := by
  show nodeVector.mk (safeDiv 0 0 * 0) (safeDiv 0.8 (Real.sqrt 0.68) * 1)
    (safeDiv 0 0 * 0) (safeDiv 0 0 * 0) = _
  rw [safeDiv_of_le (le_of_lt eps_lt_sqrt68)]
  simp only [mul_zero, mul_one]

theorem weighted_rows9 : weightedRows pl9 rows9 =
    [("A", ⟨0, 0.2 / Real.sqrt 0.68, 0, 0⟩),
     ("B", ⟨0, 0.8 / Real.sqrt 0.68, 0, 0⟩)] := by
  show [("A", weightVec pl9 (denoms rows9) vA9),
    ("B", weightVec pl9 (denoms rows9) vB9)] = _
  rw [denoms_rows9, wv9A, wv9B]

theorem ideal_rows9 : idealVec pl9 rows9 =
    ⟨0, 0.8 / Real.sqrt 0.68, 0, 0⟩ := by
  rw [idealVec_eq, weighted_rows9]
  show getExtreme pl9 ⟨0, 0.2 / Real.sqrt 0.68, 0, 0⟩
    ⟨0, 0.8 / Real.sqrt 0.68, 0, 0⟩ true = _
  apply nodeVector_ext
  intro k
  rw [getVal_getExtreme, extreme1_eq_minmax]
  have hle : (0.2 : ℝ) / Real.sqrt 0.68 ≤ 0.8 / Real.sqrt 0.68 :=
    (div_le_div_right sqrt68_pos).mpr (by norm_num)
  cases k <;>
    simp only [getVal, crCost, pl9] <;>
    simp [max_eq_right, hle, max_eq_right hle]

theorem neg_rows9 : negVec pl9 rows9 =
    ⟨0, 0.2 / Real.sqrt 0.68, 0, 0⟩ := by
  rw [negVec_eq, weighted_rows9]
  show getExtreme pl9 ⟨0, 0.2 / Real.sqrt 0.68, 0, 0⟩
    ⟨0, 0.8 / Real.sqrt 0.68, 0, 0⟩ false = _
  apply nodeVector_ext
  intro k
  rw [getVal_getExtreme, extreme1_eq_minmax]
  have hle : (0.2 : ℝ) / Real.sqrt 0.68 ≤ 0.8 / Real.sqrt 0.68 :=
    (div_le_div_right sqrt68_pos).mpr (by norm_num)
  cases k <;>
    simp only [getVal, crCost, pl9] <;>
    simp [min_eq_left, hle, min_eq_left hle]

theorem dist9AB : euclideanDist ⟨0, 0.2 / Real.sqrt 0.68, 0, 0⟩
    ⟨0, 0.8 / Real.sqrt 0.68, 0, 0⟩ = 0.6 / Real.sqrt 0.68 := by
  rw [euclideanDist_mk]
  exact sqrt_eval_sq (by positivity) (by ring)

theorem dist9BA : euclideanDist ⟨0, 0.8 / Real.sqrt 0.68, 0, 0⟩
    ⟨0, 0.2 / Real.sqrt 0.68, 0, 0⟩ = 0.6 / Real.sqrt 0.68 := by
  rw [euclideanDist_mk]
  exact sqrt_eval_sq (by positivity) (by ring)

theorem eps_lt_gap9 : eps < 0.6 / Real.sqrt 0.68 := by
  have h : (0.6 : ℝ) ≤ 0.6 / Real.sqrt 0.68 := by
    rw [le_div_iff sqrt68_pos]
    nlinarith [sqrt68_lt_one, sqrt68_pos]
  calc eps < 0.6 := by norm_num [eps]
  _ ≤ 0.6 / Real.sqrt 0.68 := h

theorem closeness9A :
    closenessOf ⟨0, 0.2 / Real.sqrt 0.68, 0, 0⟩ (idealVec pl9 rows9)
      (negVec pl9 rows9) = 0 := by
  rw [closenessOf_eq_ite, ideal_rows9, neg_rows9, dist9AB,
    euclideanDist_self]
  rw [if_neg (by simpa using not_le.mpr eps_lt_gap9)]
  simp

theorem closeness9B :
    closenessOf ⟨0, 0.8 / Real.sqrt 0.68, 0, 0⟩ (idealVec pl9 rows9)
      (negVec pl9 rows9) = 1 := by
  rw [closenessOf_eq_ite, ideal_rows9, neg_rows9, dist9BA,
    euclideanDist_self]
  rw [if_neg (by simpa using not_le.mpr eps_lt_gap9)]
  rw [zero_add]
  exact div_self (ne_of_gt (lt_trans eps_pos eps_lt_gap9))

theorem wvec9A : wvec pl9 rows9 vA9 = ⟨0, 0.2 / Real.sqrt 0.68, 0, 0⟩ := by
  unfold wvec
  rw [denoms_rows9, wv9A]

theorem wvec9B : wvec pl9 rows9 vB9 = ⟨0, 0.8 / Real.sqrt 0.68, 0, 0⟩ := by
  unfold wvec
  rw [denoms_rows9, wv9B]

theorem score9A : scoreValue pl9 rows9 vA9 = 0 := by
  unfold scoreValue
  rw [wvec9A, closeness9A, zero_mul]
  exact goRound_eq_of_bounds (by norm_num) (by push_cast; norm_num)
    (by push_cast; norm_num)

theorem score9B : scoreValue pl9 rows9 vB9 = 100 := by
  unfold scoreValue
  rw [wvec9B, closeness9B, one_mul]
  rw [show MaxNodeScore = 100 from rfl]
  exact goRound_eq_of_bounds (by norm_num) (by push_cast; norm_num)
    (by push_cast; norm_num)

theorem scores_rows9 : scoresOfRaw pl9 rows9 = [("A", 0), ("B", 100)] := by
  rw [scoresOfRaw_eq_map]
  show [("A", scoreValue pl9 rows9 vA9), ("B", scoreValue pl9 rows9 vB9)] = _
  rw [score9A, score9B]

/-! Section: Claim C9 -/

/-- C9: in the two-candidate scenario with only the cpu criterion
weighted (weight 1, polarity Benefit, all other weights 0), node A at cpu
0.2 and node B at cpu 0.8: A's normalized weighted cpu value is
0.2/sqrt(0.2^2+0.8^2) (which rounds to 0.243: it lies in
[0.2425, 0.2435)) and B's is 0.8/sqrt(0.2^2+0.8^2) (rounding to 0.970),
the ideal takes B's value and the anti-ideal A's, A's closeness is 0 and
B's is 1, and the scores are A = 0 and B = 100. -/
theorem C9_two_node_cpu_scenario :
    (weightedRows pl9 rows9).lookup "A" =
        some ⟨0, 0.2 / Real.sqrt ((0.2 : ℝ) ^ 2 + (0.8 : ℝ) ^ 2), 0, 0⟩ ∧
      (weightedRows pl9 rows9).lookup "B" =
        some ⟨0, 0.8 / Real.sqrt ((0.2 : ℝ) ^ 2 + (0.8 : ℝ) ^ 2), 0, 0⟩ ∧
      (0.2425 : ℝ) ≤ 0.2 / Real.sqrt ((0.2 : ℝ) ^ 2 + (0.8 : ℝ) ^ 2) ∧
      (0.2 : ℝ) / Real.sqrt ((0.2 : ℝ) ^ 2 + (0.8 : ℝ) ^ 2) < 0.2435 ∧
      (0.9695 : ℝ) ≤ 0.8 / Real.sqrt ((0.2 : ℝ) ^ 2 + (0.8 : ℝ) ^ 2) ∧
      (0.8 : ℝ) / Real.sqrt ((0.2 : ℝ) ^ 2 + (0.8 : ℝ) ^ 2) < 0.9705 ∧
      idealVec pl9 rows9 =
        ⟨0, 0.8 / Real.sqrt ((0.2 : ℝ) ^ 2 + (0.8 : ℝ) ^ 2), 0, 0⟩ ∧
      negVec pl9 rows9 =
        ⟨0, 0.2 / Real.sqrt ((0.2 : ℝ) ^ 2 + (0.8 : ℝ) ^ 2), 0, 0⟩ ∧
      closenessOf ⟨0, 0.2 / Real.sqrt ((0.2 : ℝ) ^ 2 + (0.8 : ℝ) ^ 2), 0, 0⟩
        (idealVec pl9 rows9) (negVec pl9 rows9) = 0 ∧
      closenessOf ⟨0, 0.8 / Real.sqrt ((0.2 : ℝ) ^ 2 + (0.8 : ℝ) ^ 2), 0, 0⟩
        (idealVec pl9 rows9) (negVec pl9 rows9) = 1 ∧
      (scoresOfRaw pl9 rows9).lookup "A" = some 0 ∧
      (scoresOfRaw pl9 rows9).lookup "B" = some 100 := by
  have hs : Real.sqrt ((0.2 : ℝ) ^ 2 + (0.8 : ℝ) ^ 2) = Real.sqrt 0.68 := by
    norm_num
  rw [hs]
  refine ⟨?_, ?_, ?_, ?_, ?_, ?_, ideal_rows9, neg_rows9, closeness9A,
    closeness9B, ?_, ?_⟩
  · rw [weighted_rows9]
    rfl
  · rw [weighted_rows9]
    rfl
  · rw [le_div_iff sqrt68_pos]
    nlinarith [sqrt68_sq, sqrt68_pos]
  · rw [div_lt_iff sqrt68_pos]
    nlinarith [sqrt68_sq, sqrt68_pos]
  · rw [le_div_iff sqrt68_pos]
    nlinarith [sqrt68_sq, sqrt68_pos]
  · rw [div_lt_iff sqrt68_pos]
    nlinarith [sqrt68_sq, sqrt68_pos]
  · rw [scores_rows9]
    rfl
  · rw [scores_rows9]
    rfl

/-- Witness for C8 (amended) at the two-node cpu-only scenario: node B
with the larger cpu value scores at least node A. -/
theorem C8_monotonicity_nondegenerate_witness :
    scoreValue pl9 rows9 vA9 ≤ scoreValue pl9 rows9 vB9 :=
  (C8_monotonicity_nondegenerate pl9 rows9 Crit.cpu "B" "A" vB9 vA9
    (by simp [rows9]) (by simp [rows9])
    (by
      intro k hk
      cases k <;> first | rfl | exact absurd rfl hk)
    (by norm_num [crWeight, pl9])
    (by norm_num [getVal, vA9, vB9])
    (by
      rw [wvec9B, ideal_rows9, neg_rows9, euclideanDist_self, dist9BA,
        zero_add]
      exact eps_lt_gap9)
    (by
      rw [wvec9A, ideal_rows9, neg_rows9, euclideanDist_self, dist9AB,
        add_zero]
      exact eps_lt_gap9)).2.2.1 rfl

/-! Section: Concrete evaluation of the three-node epsilon-fallback scenario -/

theorem denoms_rows8 : denoms rows8 = ⟨0, 3, 3, 0⟩ := by
  show nodeVector.mk (denomOf [0, 0, 0]) (denomOf [2, 1, 2])
    (denomOf [2, 2, 1]) (denomOf [0, 0, 0]) = _
  have h0 : denomOf [(0 : ℝ), 0, 0] = 0 := by
    unfold denomOf
    norm_num
  have hc : denomOf [(2 : ℝ), 1, 2] = 3 := by
    unfold denomOf
    exact sqrt_eval_sq (by norm_num) (by norm_num)
  have hm : denomOf [(2 : ℝ), 2, 1] = 3 := by
    unfold denomOf
    exact sqrt_eval_sq (by norm_num) (by norm_num)
  rw [h0, hc, hm]

theorem eps_le_three : eps ≤ (3 : ℝ) := by norm_num [eps]

theorem wv8X : weightVec pl8 ⟨0, 3, 3, 0⟩ vX8 =
    ⟨0, 1 / 1250000000, 1 / 625000000, 0⟩ := by
  show nodeVector.mk (safeDiv 0 0 * 0) (safeDiv 2 3 * (3 / 2500000000))
    (safeDiv 2 3 * (3 / 1250000000)) (safeDiv 0 0 * 0) = _
  simp only [safeDiv_of_le eps_le_three, mul_zero]
  norm_num [nodeVector.mk.injEq]

theorem wv8Y : weightVec pl8 ⟨0, 3, 3, 0⟩ vY8 =
    ⟨0, 1 / 2500000000, 1 / 625000000, 0⟩ := by
  show nodeVector.mk (safeDiv 0 0 * 0) (safeDiv 1 3 * (3 / 2500000000))
    (safeDiv 2 3 * (3 / 1250000000)) (safeDiv 0 0 * 0) = _
  simp only [safeDiv_of_le eps_le_three, mul_zero]
  norm_num [nodeVector.mk.injEq]

theorem wv8Z : weightVec pl8 ⟨0, 3, 3, 0⟩ vZ8 =
    ⟨0, 1 / 1250000000, 1 / 1250000000, 0⟩ := by
  show nodeVector.mk (safeDiv 0 0 * 0) (safeDiv 2 3 * (3 / 2500000000))
    (safeDiv 1 3 * (3 / 1250000000)) (safeDiv 0 0 * 0) = _
  simp only [safeDiv_of_le eps_le_three, mul_zero]
  norm_num [nodeVector.mk.injEq]

theorem weighted_rows8 : weightedRows pl8 rows8 =
    [("X", ⟨0, 1 / 1250000000, 1 / 625000000, 0⟩),
     ("Y", ⟨0, 1 / 2500000000, 1 / 625000000, 0⟩),
     ("Z", ⟨0, 1 / 1250000000, 1 / 1250000000, 0⟩)] := by
  show [("X", weightVec pl8 (denoms rows8) vX8),
    ("Y", weightVec pl8 (denoms rows8) vY8),
    ("Z", weightVec pl8 (denoms rows8) vZ8)] = _
  rw [denoms_rows8, wv8X, wv8Y, wv8Z]

theorem ideal_rows8 : idealVec pl8 rows8 =
    ⟨0, 1 / 1250000000, 1 / 625000000, 0⟩ := by
  rw [idealVec_eq, weighted_rows8]
  show getExtreme pl8
    (getExtreme pl8 ⟨0, 1 / 1250000000, 1 / 625000000, 0⟩
      ⟨0, 1 / 2500000000, 1 / 625000000, 0⟩ true)
    ⟨0, 1 / 1250000000, 1 / 1250000000, 0⟩ true = _
  apply nodeVector_ext
  intro k
  rw [getVal_getExtreme, getVal_getExtreme, extreme1_eq_minmax,
    extreme1_eq_minmax]
  cases k <;>
    simp only [getVal, crCost, pl8] <;>
    norm_num [max_def]

theorem neg_rows8 : negVec pl8 rows8 =
    ⟨0, 1 / 2500000000, 1 / 1250000000, 0⟩ := by
  rw [negVec_eq, weighted_rows8]
  show getExtreme pl8
    (getExtreme pl8 ⟨0, 1 / 1250000000, 1 / 625000000, 0⟩
      ⟨0, 1 / 2500000000, 1 / 625000000, 0⟩ false)
    ⟨0, 1 / 1250000000, 1 / 1250000000, 0⟩ false = _
  apply nodeVector_ext
  intro k
  rw [getVal_getExtreme, getVal_getExtreme, extreme1_eq_minmax,
    extreme1_eq_minmax]
  cases k <;>
    simp only [getVal, crCost, pl8] <;>
    norm_num [min_def]

theorem wvec8X : wvec pl8 rows8 vX8 = ⟨0, 1 / 1250000000, 1 / 625000000, 0⟩ := by
  unfold wvec
  rw [denoms_rows8, wv8X]

theorem wvec8Y : wvec pl8 rows8 vY8 = ⟨0, 1 / 2500000000, 1 / 625000000, 0⟩ := by
  unfold wvec
  rw [denoms_rows8, wv8Y]

theorem wvec8Z : wvec pl8 rows8 vZ8 = ⟨0, 1 / 1250000000, 1 / 1250000000, 0⟩ := by
  unfold wvec
  rw [denoms_rows8, wv8Z]

theorem score8X : scoreValue pl8 rows8 vX8 = 50 := by
  unfold scoreValue
  rw [wvec8X, ideal_rows8, neg_rows8, closenessOf_eq_ite,
    euclideanDist_self, euclideanDist_mk]
  rw [if_pos]
  · rw [show (1 : ℝ) / 2 * MaxNodeScore = 50 by norm_num [MaxNodeScore]]
    exact goRound_eq_of_bounds (by norm_num) (by push_cast; norm_num)
      (by push_cast; norm_num)
  · rw [zero_add]
    exact sqrt_le_bound (le_of_lt eps_pos) (by norm_num [eps])

theorem score8Y : scoreValue pl8 rows8 vY8 = 67 := by
  unfold scoreValue
  rw [wvec8Y, ideal_rows8, neg_rows8, closenessOf_eq_ite,
    euclideanDist_mk, euclideanDist_mk]
  rw [sqrt_eval_sq (le_of_lt (by norm_num : (0 : ℝ) < 1 / 2500000000))
      (by norm_num),
    sqrt_eval_sq (le_of_lt (by norm_num : (0 : ℝ) < 1 / 1250000000))
      (by norm_num)]
  rw [if_neg (by norm_num [eps])]
  rw [show (1 : ℝ) / 1250000000 /
      (1 / 2500000000 + 1 / 1250000000) * MaxNodeScore = 200 / 3 by
    norm_num [MaxNodeScore]]
  exact goRound_eq_of_bounds (by norm_num) (by push_cast; norm_num)
    (by push_cast; norm_num)

theorem score8Z : scoreValue pl8 rows8 vZ8 = 33 := by
  unfold scoreValue
  rw [wvec8Z, ideal_rows8, neg_rows8, closenessOf_eq_ite,
    euclideanDist_mk, euclideanDist_mk]
  rw [sqrt_eval_sq (le_of_lt (by norm_num : (0 : ℝ) < 1 / 1250000000))
      (by norm_num),
    sqrt_eval_sq (le_of_lt (by norm_num : (0 : ℝ) < 1 / 2500000000))
      (by norm_num)]
  rw [if_neg (by norm_num [eps])]
  rw [show (1 : ℝ) / 2500000000 /
      (1 / 1250000000 + 1 / 2500000000) * MaxNodeScore = 100 / 3 by
    norm_num [MaxNodeScore]]
  exact goRound_eq_of_bounds (by norm_num) (by push_cast; norm_num)
    (by push_cast; norm_num)

theorem scores_rows8 : scoresOfRaw pl8 rows8 =
    [("X", 50), ("Y", 67), ("Z", 33)] := by
  rw [scoresOfRaw_eq_map]
  show [("X", scoreValue pl8 rows8 vX8), ("Y", scoreValue pl8 rows8 vY8),
    ("Z", scoreValue pl8 rows8 vZ8)] = _
  rw [score8X, score8Y, score8Z]

/-- C8 counterexample: in the three-node scenario rows8 under pl8, node X
has the strictly larger raw value on the Benefit-typed cpu criterion
(weight 1.2e-9 > 0) and is identical to node Y on pods, mem and power,
yet X scores 50 while Y scores 67: the claimed monotonicity fails as
stated, because X falls into the epsilon closeness fallback while Y does
not. -/
theorem C8_counterexample :
    crCost pl8 Crit.cpu = false ∧
      0 < crWeight pl8 Crit.cpu ∧
      getVal vY8 Crit.cpu < getVal vX8 Crit.cpu ∧
      getVal vX8 Crit.pods = getVal vY8 Crit.pods ∧
      getVal vX8 Crit.mem = getVal vY8 Crit.mem ∧
      getVal vX8 Crit.power = getVal vY8 Crit.power ∧
      ("X", vX8) ∈ rows8 ∧ ("Y", vY8) ∈ rows8 ∧
      (scoresOfRaw pl8 rows8).lookup "X" = some 50 ∧
      (scoresOfRaw pl8 rows8).lookup "Y" = some 67 ∧
      (50 : ℤ) < 67 := by
  refine ⟨rfl, by norm_num [crWeight, pl8], by norm_num [getVal, vX8, vY8],
    rfl, rfl, rfl, by simp [rows8], by simp [rows8], ?_, ?_, by norm_num⟩
  · rw [scores_rows8]
    rfl
  · rw [scores_rows8]
    rfl

end PowerTopsis
